import Mathlib

/-!
Verification of the key-management core (`src/keys.rs`) of the secure-signer
repository, as a shallow embedding in Lean.

Embedding conventions:
* Rust `u8` byte sequences and Rust `String`s (UTF-8 byte strings; every string
  in the verified claims is ASCII) are both modelled as `List Nat` of byte
  values.
* Machine 64-bit words inside Keccak are `Nat` reduced modulo `2 ^ 64`.
* A fallible Rust function returning `anyhow::Result<T>` is modelled as
  `RResult T`: `ok` for `Ok`, `err` for `Err` (carrying the source's message,
  without interpolated runtime values), and `panicked` for a Rust panic
  (failed `assert!`, out-of-bounds slice, `unwrap` of an `Err`).
* The external `blst` BLS12-381 library and the `ecies` library are modelled
  as abstract operation records (`BlsApi`, `EciesApi`); the repository's own
  control flow around them is embedded literally.
* The file system used by the key store is modelled as an explicit `Fs` value
  threaded through the operations that touch it.
-/

/-- UTF-8 bytes of an ASCII string literal. -/
def strBytes (s : String) : List Nat := s.toList.map Char.toNat

/-- Rust `char::to_lowercase` / `str::to_lowercase`, restricted to ASCII
(all inputs in the verified claims are ASCII hex characters). -/
def toLowerByte (b : Nat) : Nat := if 65 ≤ b ∧ b ≤ 90 then b + 32 else b

/-- Rust `char::to_uppercase`, restricted to ASCII. -/
def toUpperByte (b : Nat) : Nat := if 97 ≤ b ∧ b ≤ 122 then b - 32 else b

/-- Is the byte an ASCII hex digit (`0-9`, `a-f`, `A-F`)? -/
def isHexByte (b : Nat) : Bool :=
  (48 ≤ b && b ≤ 57) || (97 ≤ b && b ≤ 102) || (65 ≤ b && b ≤ 70)

/-- Rust `str::trim_start_matches("0x")`: repeatedly strip a leading `"0x"`. -/
def trimStart0x : List Nat → List Nat
  | 48 :: 120 :: rest => trimStart0x rest
  | s => s

/-! ## Keccak-256 (model of the `sha3` crate's `Keccak256`) -/

/-- `2 ^ 64`. -/
def W64 : Nat := 18446744073709551616

/-- Rotate a 64-bit word left by `r` bits. -/
def rotl64 (n r : Nat) : Nat :=
  ((n <<< (r % 64)) % W64) ||| (n >>> (64 - r % 64))

/-- Bitwise complement of a 64-bit word. -/
def not64 (n : Nat) : Nat := 18446744073709551615 ^^^ n

/-- Keccak ρ-step rotation offsets as a table read as `r[x][y]` (column `x`
first, then row `y`). -/
def RHO_TABLE : List (List Nat) :=
  [[0, 36, 3, 41, 18],
   [1, 44, 10, 45, 2],
   [62, 6, 43, 15, 61],
   [28, 55, 25, 21, 56],
   [27, 20, 39, 8, 14]]

/-- ρ rotation offset of lane `(x, y)`. -/
def rhoOffset (x y : Nat) : Nat := (RHO_TABLE.getD (x % 5) []).getD (y % 5) 0

/-- Keccak ι-step round constants for the 24 rounds of Keccak-f[1600]. -/
def ROUND_CONSTANTS : List Nat :=
  [0x0000000000000001, 0x0000000000008082, 0x800000000000808a, 0x8000000080008000,
   0x000000000000808b, 0x0000000080000001, 0x8000000080008081, 0x8000000000008009,
   0x000000000000008a, 0x0000000000000088, 0x0000000080008009, 0x000000008000000a,
   0x000000008000808b, 0x800000000000008b, 0x8000000000008089, 0x8000000000008003,
   0x8000000000008002, 0x8000000000000080, 0x000000000000800a, 0x800000008000000a,
   0x8000000080008081, 0x8000000000008080, 0x0000000080000001, 0x8000000080008008]

/-- Lane `(x, y)` of a 25-lane Keccak state. -/
def laneAt (s : List Nat) (x y : Nat) : Nat := s.getD (x % 5 + 5 * (y % 5)) 0

/-- Keccak θ step. -/
def thetaStep (s : List Nat) : List Nat :=
  let C := (List.range 5).map (fun x =>
    laneAt s x 0 ^^^ laneAt s x 1 ^^^ laneAt s x 2 ^^^ laneAt s x 3 ^^^ laneAt s x 4)
  let D := (List.range 5).map (fun x =>
    C.getD ((x + 4) % 5) 0 ^^^ rotl64 (C.getD ((x + 1) % 5) 0) 1)
  (List.range 25).map (fun i => s.getD i 0 ^^^ D.getD (i % 5) 0)

/-- Keccak ρ and π steps combined: the lane placed at target `(X, Y)` is the
source lane `((X + 3 Y) mod 5, X)` rotated by its ρ offset. -/
def rhoPiStep (s : List Nat) : List Nat :=
  (List.range 25).map (fun t =>
    let sx := (t % 5 + 3 * (t / 5)) % 5
    let sy := t % 5
    rotl64 (laneAt s sx sy) (rhoOffset sx sy))

/-- Keccak χ step. -/
def chiStep (s : List Nat) : List Nat :=
  (List.range 25).map (fun t =>
    let x := t % 5
    let y := t / 5
    laneAt s x y ^^^ (not64 (laneAt s (x + 1) y) &&& laneAt s (x + 2) y))

/-- One round of Keccak-f[1600] (θ, ρ, π, χ, then ι with constant `rc`). -/
def keccakRound (s : List Nat) (rc : Nat) : List Nat :=
  let u := chiStep (rhoPiStep (thetaStep s))
  (List.range 25).map (fun t => if t = 0 then u.getD 0 0 ^^^ rc else u.getD t 0)

/-- The Keccak-f[1600] permutation (24 rounds). -/
def keccakF (s : List Nat) : List Nat := ROUND_CONSTANTS.foldl keccakRound s

/-- Keccak multi-rate padding for rate 136 with domain byte `0x01`
(original Keccak, as used by Ethereum; not the SHA-3 `0x06` variant). -/
def keccakPad (msg : List Nat) : List Nat :=
  let r := 136 - msg.length % 136
  if r = 1 then msg ++ [129]
  else msg ++ 1 :: List.replicate (r - 2) 0 ++ [128]

/-- Little-endian 64-bit lane from (at most 8) bytes. -/
def bytesToLane (bs : List Nat) : Nat := bs.foldr (fun b acc => acc * 256 + b % 256) 0

/-- XOR a 136-byte block into the first 17 lanes and permute. -/
def absorbBlock (s block : List Nat) : List Nat :=
  keccakF ((List.range 25).map (fun j =>
    if j < 17 then s.getD j 0 ^^^ bytesToLane ((block.drop (8 * j)).take 8)
    else s.getD j 0))

/-- Keccak-256: pad, absorb every 136-byte block, and squeeze 32 bytes
(the first four lanes, little-endian). -/
def keccak256 (msg : List Nat) : List Nat :=
  let padded := keccakPad msg
  let final := (List.range (padded.length / 136)).foldl
    (fun s i => absorbBlock s ((padded.drop (136 * i)).take 136))
    (List.replicate 25 0)
  (List.range 32).map (fun i => (final.getD (i / 8) 0 >>> (8 * (i % 8))) % 256)

/-! ## Hex encoding and decoding (model of the `hex` crate) -/

/-- Lowercase hex digit byte for a nibble value. -/
def hexDigit (n : Nat) : Nat := if n < 10 then 48 + n else 87 + n

/-- `hex::encode`: each byte becomes a high and a low lowercase hex digit. -/
def hexEncode : List Nat → List Nat
  | [] => []
  | b :: rest => hexDigit (b / 16) :: hexDigit (b % 16) :: hexEncode rest

/-- Numeric value of a hex digit byte (as accepted by
`u16::from_str_radix(_, 16)` / `hex::decode`), if it is one. -/
def hexVal? (b : Nat) : Option Nat :=
  if 48 ≤ b ∧ b ≤ 57 then some (b - 48)
  else if 97 ≤ b ∧ b ≤ 102 then some (b - 87)
  else if 65 ≤ b ∧ b ≤ 70 then some (b - 55)
  else none

/-! ## Result type for fallible Rust code -/

/-- Outcome of a Rust function returning `anyhow::Result`: `ok`, a recoverable
`err` (the source's message, without interpolated runtime values), or a
process-aborting `panicked` (failed assertion, out-of-range slice, `unwrap`
of an `Err`). -/
inductive RResult (α : Type) where
  | ok : α → RResult α
  | err : String → RResult α
  | panicked : String → RResult α
deriving DecidableEq

/-- `hex::decode` on an even-length byte string: decode hex digit pairs. -/
def hexDecodePairs : List Nat → RResult (List Nat)
  | [] => .ok []
  | [_] => .err "hex decode failed: odd length"
  | a :: b :: rest =>
    match hexVal? a, hexVal? b, hexDecodePairs rest with
    | some x, some y, .ok r => .ok ((16 * x + y) :: r)
    | none, _, _ => .err "hex decode failed: invalid hex character"
    | _, none, _ => .err "hex decode failed: invalid hex character"
    | _, _, .err e => .err e
    | _, _, .panicked p => .panicked p

/-- `hex::decode`: rejects odd-length input, then decodes digit pairs. -/
def hexDecode (s : List Nat) : RResult (List Nat) :=
  if s.length % 2 ≠ 0 then .err "hex decode failed: odd length"
  else hexDecodePairs s

/-! ## `keccak`, `checksum`, `pk_to_eth_addr` (from `src/keys.rs`) -/

/-- `keccak` from `src/keys.rs`: hash with `Keccak256`, then convert the digest
slice into a `[u8; 32]` array (`try_into` fails exactly when the slice length
is not 32). -/
def keccak (bytes : List Nat) : RResult (List Nat) :=
  let digest := keccak256 bytes
  if digest.length = 32 then .ok digest
  else .err "keccak could not be cast to [u8; 32,]"

/-- One step of the fold inside `checksum`: read the hash's hex digit at the
character's index (Rust panics if the byte-slice index is out of range, and
`unwrap`s the radix-16 parse), then push the character uppercased when the
digit's value exceeds 7. -/
def checksumStep (address_hash : List Nat) (acc : RResult (List Nat)) (p : Nat × Nat) :
    RResult (List Nat) :=
  match acc with
  | .ok s =>
    if p.1 < address_hash.length then
      match hexVal? (address_hash.getD p.1 0) with
      | some n => if n > 7 then .ok (s ++ [toUpperByte p.2]) else .ok (s ++ [p.2])
      | none => .panicked "unwrap of from_str_radix failed"
    else .panicked "byte index out of bounds of address hash"
  | e => e

/-- `checksum` from `src/keys.rs`: strip any leading `"0x"`, lowercase, hash the
remaining bytes with `keccak`, hex-encode the hash, then fold over the
characters with index, starting from `"0x"`. -/
def checksum (address : List Nat) : RResult (List Nat) :=
  let addr := (trimStart0x address).map toLowerByte
  match keccak addr with
  | .err e => .err e
  | .panicked p => .panicked p
  | .ok hash_bytes =>
    let address_hash := hexEncode hash_bytes
    addr.enum.foldl (checksumStep address_hash) (.ok (strBytes "0x"))

/-- The hex digit at index `i` of the hex representation of the byte string
`bs` (the high nibble of byte `i / 2` when `i` is even, the low nibble when
`i` is odd). -/
def nibbleAt (bs : List Nat) (i : Nat) : Nat :=
  if i % 2 = 0 then bs.getD (i / 2) 0 / 16 else bs.getD (i / 2) 0 % 16

/-- The checksum function as the specification words it (spec §4.2 / claim C1):
strip any leading `"0x"`, lowercase the remainder, compute
`h = Keccak256(utf8 bytes of the lowercase string)`, and return `"0x"`
followed by the string in which the character at index `i` is uppercased
exactly when the hex digit at index `i` of `h`'s hex representation has
numeric value greater than 7. -/
def checksum_spec (address : List Nat) : List Nat :=
  let addr := (trimStart0x address).map toLowerByte
  let h := keccak256 addr
  strBytes "0x" ++ addr.enum.map (fun p => if 7 < nibbleAt h p.1 then toUpperByte p.2 else p.2)

/-- `pk_to_eth_addr` from `src/keys.rs`: require the serialized key to be
65 bytes, hash all but the first byte with `keccak`, keep the last 20 bytes,
hex-encode, and checksum. -/
def pk_to_eth_addr (pk_bytes : List Nat) : RResult (List Nat) :=
  if pk_bytes.length ≠ 65 then .err "SECP256K1 pub key must be 65B"
  else
    match keccak (pk_bytes.drop 1) with
    | .err e => .err ("keccak failed when converting pk to eth addr: " ++ e)
    | .panicked p => .panicked p
    | .ok digest => checksum (hexEncode (digest.drop 12))

/-! ## Model of the `blst` and `ecies` libraries -/

/-- The `BLST_ERROR` codes of the `blst` crate. -/
inductive BLST_ERROR where
  | BLST_SUCCESS
  | BLST_BAD_ENCODING
  | BLST_POINT_NOT_ON_CURVE
  | BLST_POINT_NOT_IN_GROUP
  | BLST_AGGR_TYPE_MISMATCH
  | BLST_VERIFY_FAIL
  | BLST_PK_IS_INFINITY
  | BLST_BAD_SCALAR
deriving DecidableEq

/-- Debug formatting (`{:?}`) of a `BLST_ERROR`. -/
def blstErrName : BLST_ERROR → String
  | .BLST_SUCCESS => "BLST_SUCCESS"
  | .BLST_BAD_ENCODING => "BLST_BAD_ENCODING"
  | .BLST_POINT_NOT_ON_CURVE => "BLST_POINT_NOT_ON_CURVE"
  | .BLST_POINT_NOT_IN_GROUP => "BLST_POINT_NOT_IN_GROUP"
  | .BLST_AGGR_TYPE_MISMATCH => "BLST_AGGR_TYPE_MISMATCH"
  | .BLST_VERIFY_FAIL => "BLST_VERIFY_FAIL"
  | .BLST_PK_IS_INFINITY => "BLST_PK_IS_INFINITY"
  | .BLST_BAD_SCALAR => "BLST_BAD_SCALAR"

/-- Abstract interface of the `blst::min_pk` operations used by `src/keys.rs`.
The key, signature and aggregate types are opaque; the byte-level codecs and
the pairing checks are uninterpreted functions. Argument order follows the
`blst` call sites in the source. -/
structure BlsApi (Sk Pk Sig AggSig AggPk : Type) where
  /-- `SecretKey::sk_to_pk`. -/
  sk_to_pk : Sk → Pk
  /-- `SecretKey::sign(msg, dst, aug)`. -/
  sign : Sk → List Nat → List Nat → List Nat → Sig
  /-- `Signature::verify(sig_groupcheck, msg, dst, aug, pk, pk_validate)`. -/
  verify : Sig → Bool → List Nat → List Nat → List Nat → Pk → Bool → BLST_ERROR
  /-- `PublicKey::compress` (48 bytes). -/
  compress : Pk → List Nat
  /-- `SecretKey::to_bytes`. -/
  sk_to_bytes : Sk → List Nat
  /-- `SecretKey::serialize`. -/
  sk_serialize : Sk → List Nat
  /-- `PublicKey::from_bytes`. -/
  pk_from_bytes : List Nat → Except BLST_ERROR Pk
  /-- `SecretKey::from_bytes`. -/
  sk_from_bytes : List Nat → Except BLST_ERROR Sk
  /-- `AggregateSignature::aggregate(sigs, sigs_groupcheck)`. -/
  aggregate : List Sig → Bool → Except BLST_ERROR AggSig
  /-- `AggregateSignature::to_signature`. -/
  to_signature : AggSig → Sig
  /-- `Signature::aggregate_verify(sig_groupcheck, msgs, dst, pks, pks_validate)`. -/
  aggregate_verify : Sig → Bool → List (List Nat) → List Nat → List Pk → Bool → BLST_ERROR
  /-- `AggregatePublicKey::to_public_key`. -/
  to_public_key : AggPk → Pk

/-- Abstract interface of the `ecies` crate's `encrypt(receiver_pub, msg)`. -/
structure EciesApi where
  encrypt : List Nat → List Nat → Except String (List Nat)

/-- `CIPHER_SUITE` from `src/keys.rs`: the fixed BLS domain-separation tag. -/
def CIPHER_SUITE : List Nat := strBytes "BLS_SIG_BLS12381G2_XMD:SHA-256_SSWU_RO_NUL_"

/-! ## File-system model for the key store -/

/-- A file system: files as an association list from full path (byte string) to
content, plus the set of directories that exist (stored slash-terminated). -/
structure Fs where
  files : List (List Nat × List Nat)
  dirs : List (List Nat)
deriving DecidableEq

/-- The hardcoded key-store root `"./etc/keys/"` of `src/keys.rs`. -/
def KEYS_DIR : List Nat := strBytes "./etc/keys/"

/-- Write (create or overwrite) a file. -/
def fsWrite (fs : Fs) (p c : List Nat) : Fs :=
  { files := (p, c) :: fs.files.filter (fun e => ¬ e.1 = p), dirs := fs.dirs }

/-- Read a file's content, `none` when the path does not exist. -/
def fsRead (fs : Fs) (p : List Nat) : Option (List Nat) :=
  (fs.files.find? (fun e => e.1 = p)).map (fun e => e.2)

/-- All slash-terminated leading segments of a path: the chain of directories
`fs::create_dir_all` creates for the path's parent. -/
def dirChain (p : List Nat) : List (List Nat) :=
  (List.range p.length).filterMap (fun i =>
    if p.getD i 0 = 47 then some (p.take (i + 1)) else none)

/-- The part of path `p` lying under directory `dir`, if any. -/
def relUnder (dir p : List Nat) : Option (List Nat) :=
  if p.take dir.length = dir then some (p.drop dir.length) else none

/-- First path component (up to the first `'/'`). -/
def firstComp (s : List Nat) : List Nat := s.takeWhile (fun b => ¬ b = 47)

/-- `fs::read_dir`: the names of the entries (files and subdirectories)
directly under `dir`, each once; `none` when the directory does not exist.
The source calls `DirEntry::file_name` on each entry, so only the bare names
are modelled. -/
def fsReadDir (fs : Fs) (dir : List Nat) : Option (List (List Nat)) :=
  if fs.dirs.contains dir then
    some ((fs.files.filterMap (fun e =>
        match relUnder dir e.1 with
        | some r => if r.isEmpty then none else some (firstComp r)
        | none => none)
      ++ fs.dirs.filterMap (fun d =>
        match relUnder dir d with
        | some r => if r.isEmpty then none else some (firstComp r)
        | none => none)).dedup)
  else none

/-- Is a byte a UTF-8 continuation byte (`0x80..0xBF`)? -/
def isCont (b : Nat) : Bool := 128 ≤ b && b ≤ 191

/-- UTF-8 validity of a byte string (per the encoding ranges of RFC 3629);
`OsString::into_string` succeeds exactly on valid UTF-8 names. -/
def validUtf8 : List Nat → Bool
  | [] => true
  | b :: rest =>
    if b ≤ 127 then validUtf8 rest
    else if 194 ≤ b && b ≤ 223 then
      match rest with
      | c :: r => isCont c && validUtf8 r
      | [] => false
    else if b = 224 then
      match rest with
      | c :: d :: r => (160 ≤ c && c ≤ 191) && isCont d && validUtf8 r
      | _ => false
    else if 225 ≤ b && b ≤ 236 then
      match rest with
      | c :: d :: r => isCont c && isCont d && validUtf8 r
      | _ => false
    else if b = 237 then
      match rest with
      | c :: d :: r => (128 ≤ c && c ≤ 159) && isCont d && validUtf8 r
      | _ => false
    else if 238 ≤ b && b ≤ 239 then
      match rest with
      | c :: d :: r => isCont c && isCont d && validUtf8 r
      | _ => false
    else if b = 240 then
      match rest with
      | c :: d :: e :: r => (144 ≤ c && c ≤ 191) && isCont d && isCont e && validUtf8 r
      | _ => false
    else if 241 ≤ b && b ≤ 243 then
      match rest with
      | c :: d :: e :: r => isCont c && isCont d && isCont e && validUtf8 r
      | _ => false
    else if b = 244 then
      match rest with
      | c :: d :: e :: r => (128 ≤ c && c ≤ 143) && isCont d && isCont e && validUtf8 r
      | _ => false
    else false

/-! ## The key-store and BLS operations of `src/keys.rs` -/

section Operations

variable {Sk Pk Sig AggSig AggPk : Type}

/-- `write_key` from `src/keys.rs`: build `"./etc/keys/" ++ fname`, create the
parent directory chain, and write the hex string as the file's content
(overwriting any existing file). I/O errors are outside the model. -/
def write_key (fs : Fs) (fname sk_hex : List Nat) : Fs :=
  let file_path := KEYS_DIR ++ fname
  let fs2 : Fs :=
    { files := fs.files
      dirs := fs.dirs ++ (dirChain file_path).filter (fun d => ¬ fs.dirs.contains d) }
  fsWrite fs2 file_path sk_hex

/-- `read_bls_key` from `src/keys.rs`: read `"./etc/keys/" ++ pk_hex` (note: no
`"bls_keys/"` category segment), hex-decode the content, and parse the bytes
with `SecretKey::from_bytes`. The source matches on `sk_res.as_ref().err()`
and calls `unwrap` in the `Some(BLST_SUCCESS) | None` arm, so an
`Err(BLST_SUCCESS)` from the library would panic there. -/
def read_bls_key (B : BlsApi Sk Pk Sig AggSig AggPk) (fs : Fs) (pk_hex : List Nat) :
    RResult Sk :=
  let file_path := KEYS_DIR ++ pk_hex
  match fsRead fs file_path with
  | none => .err "Unable to read bls sk from pk_hex"
  | some sk_rec_bytes =>
    match hexDecode sk_rec_bytes with
    | .ok sk_rec_dec =>
      match B.sk_from_bytes sk_rec_dec with
      | .ok sk => .ok sk
      | .error e =>
        if e = BLST_ERROR.BLST_SUCCESS then .panicked "unwrap of Err secret key"
        else .err "Could not read_bls_key from pk_hex"
    | _ => .err "Unable to decode sk hex"

/-- `verify_bls_sig` from `src/keys.rs`:
`sig.verify(true, msg, CIPHER_SUITE, &[], &pk, true)`. -/
def verify_bls_sig (B : BlsApi Sk Pk Sig AggSig AggPk) (sig : Sig) (pk : Pk)
    (msg : List Nat) : RResult Unit :=
  match B.verify sig true msg CIPHER_SUITE [] pk true with
  | BLST_ERROR.BLST_SUCCESS => .ok ()
  | _ => .err "BLS Signature verifcation failed"

/-- `bls_sign` from `src/keys.rs`: hex-decode the identifier, parse it as a
public key, read the stored secret, reject a derived-public-key mismatch,
sign under the fixed DST with empty augmentation, and self-verify the
signature before returning it. The source compares public keys with `!=`,
so `Pk` carries decidable equality. -/
def bls_sign [DecidableEq Pk] (B : BlsApi Sk Pk Sig AggSig AggPk) (fs : Fs)
    (pk_hex msg : List Nat) : RResult Sig :=
  match hexDecode pk_hex with
  | .err e => .err e
  | .panicked p => .panicked p
  | .ok pk_bytes =>
    match B.pk_from_bytes pk_bytes with
    | .error e =>
      if e = BLST_ERROR.BLST_SUCCESS then .panicked "unwrap of Err public key"
      else .err "Could not recover pk from pk_hex"
    | .ok pk =>
      match read_bls_key B fs pk_hex with
      | .err e => .err e
      | .panicked p => .panicked p
      | .ok sk =>
        if ¬ B.sk_to_pk sk = pk then .err "Mismatch with input and derived pk"
        else
          let sig := B.sign sk msg CIPHER_SUITE []
          match verify_bls_sig B sig pk msg with
          | .ok _ => .ok sig
          | .err e => .err e
          | .panicked p => .panicked p

/-- `bls_key_gen` from `src/keys.rs`, after the secret `sk` has been drawn by
`new_bls_key` (randomness is a parameter of the model): derive the public
key, hex-encode the compressed public key and the secret bytes, and when
`save_key` is set persist the secret under `"bls_keys/" ++ pk_hex`. Returns
the public key and the resulting file system. -/
def bls_key_gen (B : BlsApi Sk Pk Sig AggSig AggPk) (fs : Fs) (sk : Sk)
    (save_key : Bool) : RResult Pk × Fs :=
  let pk := B.sk_to_pk sk
  let pk_bytes := B.compress (B.sk_to_pk sk)
  let pk_hex := hexEncode pk_bytes
  let sk_hex := hexEncode (B.sk_to_bytes sk)
  if save_key then (.ok pk, write_key fs (strBytes "bls_keys/" ++ pk_hex) sk_hex)
  else (.ok pk, fs)

/-- `bls_key_provision` from `src/keys.rs`, after the fresh secret `sk` has
been drawn: hex-decode the requester's public key, ECIES-encrypt the
serialized secret under it, and return the hex ciphertext with the derived
public key. The file system is passed through to make the claimed absence
of key-store writes expressible. -/
def bls_key_provision (B : BlsApi Sk Pk Sig AggSig AggPk) (E : EciesApi) (fs : Fs)
    (sk : Sk) (eth_pk_hex : List Nat) : RResult (List Nat × Pk) × Fs :=
  let pk := B.sk_to_pk sk
  match hexDecode eth_pk_hex with
  | .ok receiver_pub =>
    match E.encrypt receiver_pub (B.sk_serialize sk) with
    | .ok ct_sk_bytes => (.ok (hexEncode ct_sk_bytes, pk), fs)
    | .error _ => (.err "Couldn't encrypt bls sk with pk", fs)
  | _ => (.err "couldnt decode eth_pk_hex in bls_key_provision", fs)

/-- `list_bls_keys` from `src/keys.rs`: read the directory `"./etc/keys/"`
(note: the key-store root, not the `bls_keys` category directory) and
collect each entry's bare file name, failing on a name that is not
representable as a `String`. -/
def list_bls_keys (fs : Fs) : RResult (List (List Nat)) :=
  match fsReadDir fs KEYS_DIR with
  | none => .err "No keys saved in dir"
  | some paths =>
    paths.foldl (fun acc fname =>
      match acc with
      | .ok keys => if validUtf8 fname then .ok (keys ++ [fname])
                    else .err "Error, bad file name in list_keys()"
      | e => e) (.ok [])

/-- `aggregate_uniform_bls_sigs` from `src/keys.rs`: `assert!(n > 0)` (a
panic, not an error return), aggregate the signatures with per-signature
group checks, then verify the aggregate signature against the aggregate
public key and single message with checks disabled. -/
def aggregate_uniform_bls_sigs (B : BlsApi Sk Pk Sig AggSig AggPk) (agg_pk : AggPk)
    (sigs : List Sig) (msg : List Nat) : RResult Unit :=
  let n := sigs.length
  if ¬ 0 < n then .panicked "assertion failed: n > 0"
  else
    match B.aggregate sigs true with
    | .error e => .err ("could not aggregate the signatures " ++ blstErrName e)
    | .ok agg =>
      match B.verify (B.to_signature agg) false msg CIPHER_SUITE [] (B.to_public_key agg_pk)
          false with
      | BLST_ERROR.BLST_SUCCESS => .ok ()
      | _ => .err "BLS verify() with aggregate pub key failed to verify aggregate bls signature"

/-- The per-triple verification pass of `aggregate_non_uniform_bls_sigs`:
`s.verify(true, m, CIPHER_SUITE, &[], pk, true)` over
`sigs.zip(msgs).zip(pks)`. -/
def individualErrs (B : BlsApi Sk Pk Sig AggSig AggPk) (sigs : List Sig) (pks : List Pk)
    (msgs : List (List Nat)) : List BLST_ERROR :=
  ((sigs.zip msgs).zip pks).map (fun sp => B.verify sp.1.1 true sp.1.2 CIPHER_SUITE [] sp.2 true)

/-- `aggregate_non_uniform_bls_sigs` from `src/keys.rs`: assert the three
lengths agree and are positive (panics, not error returns), verify every
triple individually with group and validity checks, bail with a generic
message when any fails, then aggregate and run the multi-message
`aggregate_verify`. -/
def aggregate_non_uniform_bls_sigs (B : BlsApi Sk Pk Sig AggSig AggPk) (sigs : List Sig)
    (pks : List Pk) (msgs : List (List Nat)) : RResult Unit :=
  let n := sigs.length
  if ¬ 0 < n then .panicked "assertion failed: n > 0"
  else if ¬ n = pks.length then .panicked "assertion failed: n == pks.len()"
  else if ¬ n = msgs.length then .panicked "assertion failed: n == msgs.len()"
  else
    let errs := individualErrs B sigs pks msgs
    if ¬ errs = List.replicate n BLST_ERROR.BLST_SUCCESS then
      .err "There was an invalid signature in the group"
    else
      match B.aggregate sigs true with
      | .error e => .err ("could not aggregate the signatures " ++ blstErrName e)
      | .ok agg =>
        match B.aggregate_verify (B.to_signature agg) false msgs CIPHER_SUITE pks false with
        | BLST_ERROR.BLST_SUCCESS => .ok ()
        | _ => .err "BLS aggregate_verify failed to verify signatures"

end Operations

/-! ## Helper lemmas -/

lemma keccak256_length (msg : List Nat) : (keccak256 msg).length = 32 := by
  simp [keccak256]

lemma keccak256_lt (msg : List Nat) : ∀ b ∈ keccak256 msg, b < 256 := by
  intro b hb
  simp only [keccak256, List.mem_map, List.mem_range] at hb
  obtain ⟨i, _, rfl⟩ := hb
  exact Nat.mod_lt _ (by norm_num)

lemma keccak_eq_ok (bytes : List Nat) : keccak bytes = RResult.ok (keccak256 bytes) := by
  simp [keccak, keccak256_length]

lemma hexEncode_length (bs : List Nat) : (hexEncode bs).length = 2 * bs.length := by
  induction bs with
  | nil => rfl
  | cons b rest ih => simp [hexEncode, ih]; omega

lemma nibbleAt_cons (b : Nat) (rest : List Nat) (j : Nat) :
    nibbleAt (b :: rest) (j + 2) = nibbleAt rest j := by
  simp [nibbleAt, Nat.add_div_right, Nat.add_mod_right, List.getD_cons_succ]

lemma nibbleAt_lt (bs : List Nat) (hb : ∀ x ∈ bs, x < 256) (i : Nat) :
    nibbleAt bs i < 16 := by
  unfold nibbleAt
  split
  · rcases Nat.lt_or_ge (i / 2) bs.length with h | h
    · have hx : bs.getD (i / 2) 0 ∈ bs := by
        rw [List.getD_eq_getElem bs 0 h]
        exact List.getElem_mem h
      have := hb _ hx
      omega
    · rw [List.getD_eq_default _ _ h]
      norm_num
  · exact Nat.mod_lt _ (by norm_num)

lemma hexEncode_getD (bs : List Nat) : ∀ i, i < 2 * bs.length →
    (hexEncode bs).getD i 0 = hexDigit (nibbleAt bs i) := by
  induction bs with
  | nil => intro i h; simp at h
  | cons b rest ih =>
    intro i h
    match i with
    | 0 => simp [hexEncode, nibbleAt]
    | 1 => simp [hexEncode, nibbleAt]
    | (j + 2) =>
      have hj : j < 2 * rest.length := by
        simp only [List.length_cons] at h; omega
      simp only [hexEncode, List.getD_cons_succ, nibbleAt_cons]
      exact ih j hj

lemma hexVal?_hexDigit (n : Nat) (h : n < 16) : hexVal? (hexDigit n) = some n := by
  rcases Nat.lt_or_ge n 10 with h10 | h10
  · simp only [hexDigit, if_pos h10, hexVal?]
    rw [if_pos (by omega)]
    congr 1
    omega
  · simp only [hexDigit, if_neg (by omega : ¬ n < 10), hexVal?]
    rw [if_neg (by omega), if_pos (by omega)]
    congr 1
    omega

lemma hexDigit_range (n : Nat) (h : n < 16) :
    48 ≤ hexDigit n ∧ hexDigit n ≤ 57 ∨ 97 ≤ hexDigit n ∧ hexDigit n ≤ 102 := by
  unfold hexDigit
  split <;> omega

lemma hexEncode_forall_digit (bs : List Nat) (hb : ∀ x ∈ bs, x < 256) :
    ∀ c ∈ hexEncode bs, ∃ n, n < 16 ∧ c = hexDigit n := by
  induction bs with
  | nil => intro c hc; simp [hexEncode] at hc
  | cons b rest ih =>
    intro c hc
    have hblt : b < 256 := hb b (by simp)
    simp only [hexEncode, List.mem_cons] at hc
    rcases hc with rfl | hc
    · exact ⟨b / 16, by omega, rfl⟩
    rcases hc with rfl | hc
    · exact ⟨b % 16, Nat.mod_lt _ (by norm_num), rfl⟩
    · exact ih (fun x hx => hb x (by simp [hx])) c hc

lemma isHexByte_hexDigit (n : Nat) (h : n < 16) : isHexByte (hexDigit n) = true := by
  rcases hexDigit_range n h with h' | h' <;> simp [isHexByte] <;> omega

lemma trimStart0x_of_ne (a b : Nat) (l : List Nat) (h : ¬ (a = 48 ∧ b = 120)) :
    trimStart0x (a :: b :: l) = a :: b :: l := by
  unfold trimStart0x
  split
  · rename_i heq
    rw [List.cons.injEq, List.cons.injEq] at heq
    exact absurd ⟨heq.1, heq.2.1⟩ h
  · rfl

lemma trimStart0x_cons2 (l : List Nat) : trimStart0x (48 :: 120 :: l) = trimStart0x l := by
  rfl

lemma trimStart0x_short (s : List Nat) (h : s.length ≤ 1) : trimStart0x s = s := by
  unfold trimStart0x
  split
  · simp at h
  · rfl

lemma trimStart0x_no_x (s : List Nat) (h : ∀ b ∈ s, ¬ b = 120) : trimStart0x s = s := by
  match s with
  | [] => exact trimStart0x_short [] (by simp)
  | [a] => exact trimStart0x_short [a] (by simp)
  | a :: b :: rest =>
    refine trimStart0x_of_ne a b rest (fun hc => ?_)
    exact h b (by simp) hc.2

lemma isHexByte_ne_x (b : Nat) (h : isHexByte b = true) : ¬ b = 120 := by
  simp [isHexByte] at h
  omega

lemma toLowerByte_of_hex (b : Nat) (h : isHexByte b = true) :
    48 ≤ toLowerByte b ∧ toLowerByte b ≤ 57 ∨ 97 ≤ toLowerByte b ∧ toLowerByte b ≤ 102 := by
  simp [isHexByte] at h
  unfold toLowerByte
  split <;> omega

lemma toLowerByte_lower (b : Nat)
    (h : 48 ≤ b ∧ b ≤ 57 ∨ 97 ≤ b ∧ b ≤ 102) : toLowerByte b = b := by
  unfold toLowerByte
  split <;> omega

lemma toLowerByte_toUpperByte (b : Nat)
    (h : 48 ≤ b ∧ b ≤ 57 ∨ 97 ≤ b ∧ b ≤ 102) : toLowerByte (toUpperByte b) = b := by
  unfold toUpperByte toLowerByte
  split <;> split <;> omega

lemma toUpperByte_hex_range (b : Nat)
    (h : 48 ≤ b ∧ b ≤ 57 ∨ 97 ≤ b ∧ b ≤ 102) :
    isHexByte (toUpperByte b) = true := by
  unfold toUpperByte
  simp only [isHexByte]
  split <;> simp <;> omega

/-- The fold at the heart of `checksum` succeeds and produces the per-index
cased characters whenever every index can be looked up in the hash's hex
string and parses as a hex digit. -/
lemma checksum_foldl (H : List Nat) (l : List Nat) : ∀ (k : Nat) (pre : List Nat),
    (∀ i, k ≤ i → i < k + l.length →
      i < H.length ∧ ∃ n, hexVal? (H.getD i 0) = some n) →
    (List.enumFrom k l).foldl (checksumStep H) (.ok pre) =
      .ok (pre ++ (List.enumFrom k l).map (fun p =>
        if 7 < (hexVal? (H.getD p.1 0)).getD 0 then toUpperByte p.2 else p.2)) := by
  induction l with
  | nil => intro k pre _; simp [List.enumFrom]
  | cons c rest ih =>
    intro k pre hall
    have hk := hall k (Nat.le_refl k) (by simp)
    obtain ⟨hkH, n, hn⟩ := hk
    have hstep : checksumStep H (.ok pre) (k, c) =
        .ok (pre ++ [if 7 < (hexVal? (H.getD k 0)).getD 0 then toUpperByte c else c]) := by
      simp only [checksumStep, if_pos hkH, hn]
      rcases Nat.lt_or_ge 7 n with h7 | h7
      · rw [if_pos h7, if_pos (by simp only [hn, Option.getD_some]; omega)]
      · rw [if_neg (by omega), if_neg (by simp only [hn, Option.getD_some]; omega)]
    simp only [List.enumFrom, List.foldl_cons, hstep]
    rw [ih (k + 1) (pre ++ [if 7 < (hexVal? (H.getD k 0)).getD 0 then toUpperByte c else c])
      (fun i hi1 hi2 => hall i (by omega) (by simp [List.length_cons] at hi2 ⊢; omega))]
    simp [List.map_cons, List.append_assoc]

lemma strBytes_0x : strBytes "0x" = [48, 120] := by decide

/-- Central lemma: on an address whose stripped form is made of hex digits and
fits in the 64 hex characters of the Keccak digest, `checksum` succeeds and
computes exactly the casing the specification describes. -/
lemma checksum_eq_spec (address : List Nat)
    (hlen : (trimStart0x address).length ≤ 64) :
    checksum address = RResult.ok (checksum_spec address) := by
  unfold checksum checksum_spec
  simp only [keccak_eq_ok]
  set addr := (trimStart0x address).map toLowerByte with haddr
  set digest := keccak256 addr with hdig
  set H := hexEncode digest with hH
  have haddrlen : addr.length ≤ 64 := by
    rw [haddr, List.length_map]; exact hlen
  have hHlen : H.length = 64 := by
    rw [hH, hexEncode_length, hdig, keccak256_length]
  have hdiglt : ∀ x ∈ digest, x < 256 := keccak256_lt addr
  have hlook : ∀ i, i < addr.length →
      hexVal? (H.getD i 0) = some (nibbleAt digest i) := by
    intro i hi
    rw [hH, hexEncode_getD digest i (by rw [hdig, keccak256_length]; omega)]
    exact hexVal?_hexDigit _ (nibbleAt_lt digest hdiglt i)
  have hfold := checksum_foldl H addr 0 (strBytes "0x") (fun i hi1 hi2 => by
    refine ⟨by omega, nibbleAt digest i, ?_⟩
    exact hlook i (by omega))
  show (List.enumFrom 0 addr).foldl (checksumStep H) (.ok (strBytes "0x")) = _
  rw [hfold]
  congr 1
  congr 1
  refine List.map_congr_left (fun p hp => ?_)
  have hp1 : p.1 < addr.length := List.fst_lt_of_mem_enum hp
  rw [hlook p.1 hp1, Option.getD_some]

/-- `checksum` applied to the hex encoding of at most 32 bytes (as
`pk_to_eth_addr` does with 20) succeeds with the specification casing. -/
lemma checksum_hexEncode_ok (bs : List Nat) (hb : ∀ x ∈ bs, x < 256)
    (hlen : bs.length ≤ 32) :
    checksum (hexEncode bs) = RResult.ok (checksum_spec (hexEncode bs)) := by
  have hdigits := hexEncode_forall_digit bs hb
  have htrim : trimStart0x (hexEncode bs) = hexEncode bs := by
    refine trimStart0x_no_x _ (fun b hbmem => ?_)
    obtain ⟨n, hn, rfl⟩ := hdigits b hbmem
    exact isHexByte_ne_x _ (isHexByte_hexDigit n hn)
  refine checksum_eq_spec _ ?_
  rw [htrim, hexEncode_length]; omega

/-- `checksum_spec` depends only on the trimmed, lowercased address. -/
lemma checksum_spec_congr (u v : List Nat)
    (h : (trimStart0x u).map toLowerByte = (trimStart0x v).map toLowerByte) :
    checksum_spec u = checksum_spec v := by
  unfold checksum_spec
  rw [h]

/-- Every byte of the cased part of `checksum_spec` is the casing of the
corresponding lowercased address byte. -/
lemma checksum_spec_shape (x : List Nat) :
    checksum_spec x = 48 :: 120 :: ((trimStart0x x).map toLowerByte).enum.map
      (fun p => if 7 < nibbleAt (keccak256 ((trimStart0x x).map toLowerByte)) p.1
        then toUpperByte p.2 else p.2) := by
  unfold checksum_spec
  rw [strBytes_0x]
  rfl

/-- Lowercasing the output of `checksum_spec` recovers `"0x"` followed by the
trimmed lowercased input, provided the trimmed input is hex. -/
lemma checksum_spec_map_lower (x : List Nat)
    (hhex : ∀ b ∈ trimStart0x x, isHexByte b = true) :
    (checksum_spec x).map toLowerByte = 48 :: 120 :: (trimStart0x x).map toLowerByte := by
  rw [checksum_spec_shape]
  simp only [List.map_cons]
  have h48 : toLowerByte 48 = 48 := by decide
  have h120 : toLowerByte 120 = 120 := by decide
  rw [h48, h120, List.map_map]
  congr 1
  have : ∀ p ∈ ((trimStart0x x).map toLowerByte).enum,
      (toLowerByte ∘ fun p : Nat × Nat =>
        if 7 < nibbleAt (keccak256 ((trimStart0x x).map toLowerByte)) p.1
        then toUpperByte p.2 else p.2) p = Prod.snd p := by
    intro p hp
    have hmem : p.2 ∈ (trimStart0x x).map toLowerByte := List.snd_mem_of_mem_enum hp
    obtain ⟨b, hb, hb2⟩ := List.mem_map.mp hmem
    have hlow : 48 ≤ p.2 ∧ p.2 ≤ 57 ∨ 97 ≤ p.2 ∧ p.2 ≤ 102 := by
      rw [← hb2]; exact toLowerByte_of_hex b (hhex b hb)
    simp only [Function.comp_apply]
    split
    · exact toLowerByte_toUpperByte _ hlow
    · exact toLowerByte_lower _ hlow
  rw [List.map_congr_left this, List.enum_map_snd]

lemma addr_bytes_lower (x : List Nat) (hhex : ∀ b ∈ trimStart0x x, isHexByte b = true) :
    ∀ b ∈ (trimStart0x x).map toLowerByte, 48 ≤ b ∧ b ≤ 57 ∨ 97 ≤ b ∧ b ≤ 102 := by
  intro b hb
  obtain ⟨a, ha, rfl⟩ := List.mem_map.mp hb
  exact toLowerByte_of_hex a (hhex a ha)

lemma map_lower_of_lower (l : List Nat)
    (h : ∀ b ∈ l, 48 ≤ b ∧ b ≤ 57 ∨ 97 ≤ b ∧ b ≤ 102) : l.map toLowerByte = l := by
  have : ∀ b ∈ l, toLowerByte b = id b := fun b hb => toLowerByte_lower b (h b hb)
  rw [List.map_congr_left this, List.map_id]

lemma hexEncode_bytes_lower (bs : List Nat) (hb : ∀ x ∈ bs, x < 256) :
    ∀ b ∈ hexEncode bs, 48 ≤ b ∧ b ≤ 57 ∨ 97 ≤ b ∧ b ≤ 102 := by
  intro b hbm
  obtain ⟨n, hn, rfl⟩ := hexEncode_forall_digit bs hb b hbm
  exact hexDigit_range n hn

lemma lower_no_x (b : Nat) (h : 48 ≤ b ∧ b ≤ 57 ∨ 97 ≤ b ∧ b ≤ 102) : ¬ b = 120 := by
  omega

/-- On a 65-byte input, `pk_to_eth_addr` succeeds with the specification casing
of the hex-encoded last 20 digest bytes. -/
lemma pk_to_eth_addr_ok (pk_bytes : List Nat) (h : pk_bytes.length = 65) :
    pk_to_eth_addr pk_bytes =
      RResult.ok (checksum_spec (hexEncode ((keccak256 (pk_bytes.drop 1)).drop 12))) := by
  have heq : pk_to_eth_addr pk_bytes =
      checksum (hexEncode ((keccak256 (pk_bytes.drop 1)).drop 12)) := by
    simp [pk_to_eth_addr, h, keccak_eq_ok]
  rw [heq]
  refine checksum_hexEncode_ok _ (fun x hx => ?_) ?_
  · exact keccak256_lt _ x (List.mem_of_mem_drop hx)
  · rw [List.length_drop, keccak256_length]
    omega

/-- C1: for every hex address string (one whose stripped form consists of hex
digits; the length bound holds for every actual 40-character address),
`checksum` strips any leading `"0x"`, lowercases, hashes the UTF-8 bytes of
the lowercase string with Keccak-256, and uppercases exactly the characters
whose hash hex digit exceeds 7, prefixing the result with `"0x"`. -/
theorem claim_C1_checksum_matches_spec (address : List Nat)
    (_hhex : ∀ b ∈ trimStart0x address, isHexByte b = true)
    (hlen : (trimStart0x address).length ≤ 64) :
    checksum address = RResult.ok (checksum_spec address) :=
  checksum_eq_spec address hlen

/-- Witness for C1 at the EIP-55 reference address. -/
theorem claim_C1_checksum_matches_spec_witness :
    checksum (strBytes "0x5aaeb6053f3e94c9b9a09f33669435e7ef1beaed") =
      RResult.ok (checksum_spec (strBytes "0x5aaeb6053f3e94c9b9a09f33669435e7ef1beaed")) :=
  claim_C1_checksum_matches_spec _ (by decide) (by decide)

/-- C10: `keccak` returns `Ok` on every input; the error branch guarding the
32-byte conversion is unreachable because the digest always has 32 bytes. -/
theorem claim_C10_keccak_always_ok (bytes : List Nat) :
    keccak bytes = RResult.ok (keccak256 bytes) ∧ (keccak256 bytes).length = 32 :=
  ⟨keccak_eq_ok bytes, keccak256_length bytes⟩

/-- C6: `pk_to_eth_addr` fails with the invalid-length error exactly when the
serialized key is not 65 bytes, and otherwise returns the checksum casing of
the hex encoding of the last 20 bytes of Keccak-256 of the serialized bytes
without the leading format byte. -/
theorem claim_C6_pk_to_eth_addr (pk_bytes : List Nat) :
    (pk_bytes.length ≠ 65 →
      pk_to_eth_addr pk_bytes = RResult.err "SECP256K1 pub key must be 65B") ∧
    (pk_bytes.length = 65 →
      pk_to_eth_addr pk_bytes =
        checksum (hexEncode ((keccak256 (pk_bytes.drop 1)).drop 12)) ∧
      pk_to_eth_addr pk_bytes =
        RResult.ok (checksum_spec (hexEncode ((keccak256 (pk_bytes.drop 1)).drop 12)))) := by
  constructor
  · intro h
    simp [pk_to_eth_addr, h]
  · intro h
    refine ⟨?_, pk_to_eth_addr_ok pk_bytes h⟩
    simp [pk_to_eth_addr, h, keccak_eq_ok]

/-- Witness for C6: failure on a 1-byte key, success branch on a 65-byte key. -/
theorem claim_C6_pk_to_eth_addr_witness :
    pk_to_eth_addr [0] = RResult.err "SECP256K1 pub key must be 65B" ∧
    pk_to_eth_addr (List.replicate 65 4) =
      checksum (hexEncode ((keccak256 ((List.replicate 65 4).drop 1)).drop 12)) :=
  ⟨(claim_C6_pk_to_eth_addr [0]).1 (by decide),
   ((claim_C6_pk_to_eth_addr (List.replicate 65 4)).2 (by decide)).1⟩

lemma isHexByte_of_lower (b : Nat) (h : 48 ≤ b ∧ b ≤ 57 ∨ 97 ≤ b ∧ b ≤ 102) :
    isHexByte b = true := by
  simp [isHexByte]
  omega

lemma checksum_spec_hexEncode_shape (bs : List Nat) (hb : ∀ x ∈ bs, x < 256) :
    checksum_spec (hexEncode bs) = 48 :: 120 :: (hexEncode bs).enum.map
      (fun p => if 7 < nibbleAt (keccak256 (hexEncode bs)) p.1
        then toUpperByte p.2 else p.2) := by
  have htrim : trimStart0x (hexEncode bs) = hexEncode bs :=
    trimStart0x_no_x _ (fun b hbm => lower_no_x b (hexEncode_bytes_lower bs hb b hbm))
  have hmap : (hexEncode bs).map toLowerByte = hexEncode bs :=
    map_lower_of_lower _ (hexEncode_bytes_lower bs hb)
  rw [checksum_spec_shape, htrim, hmap]

/-- C8: `pk_to_eth_addr` is deterministic, every address produced from a
65-byte serialized key matches the pattern `^0x[0-9a-fA-F]{40}$` (length 42,
`"0x"` head, hex digits after), and `checksum` is idempotent through
lowercasing: `checksum (lowercase (checksum x)) = checksum x` for hex address
strings `x`. -/
theorem claim_C8_addr_checksum_properties :
    (∀ pk1 pk2 : List Nat, pk1 = pk2 → pk_to_eth_addr pk1 = pk_to_eth_addr pk2) ∧
    (∀ pk_bytes : List Nat, pk_bytes.length = 65 →
      ∃ out, pk_to_eth_addr pk_bytes = RResult.ok out ∧ out.length = 42 ∧
        out.take 2 = strBytes "0x" ∧ ∀ b ∈ out.drop 2, isHexByte b = true) ∧
    (∀ x y : List Nat, (∀ b ∈ trimStart0x x, isHexByte b = true) →
      (trimStart0x x).length ≤ 64 → checksum x = RResult.ok y →
      checksum (y.map toLowerByte) = RResult.ok y) := by
  refine ⟨fun pk1 pk2 h => by rw [h], fun pk_bytes h => ?_, fun x y hhex hlen hcx => ?_⟩
  · set bs := (keccak256 (pk_bytes.drop 1)).drop 12 with hbs
    have hblt : ∀ x ∈ bs, x < 256 := fun x hx =>
      keccak256_lt _ x (List.mem_of_mem_drop hx)
    have hbslen : bs.length = 20 := by
      rw [hbs, List.length_drop, keccak256_length]
    have hlow := hexEncode_bytes_lower bs hblt
    refine ⟨checksum_spec (hexEncode bs), pk_to_eth_addr_ok pk_bytes h, ?_, ?_, ?_⟩
    · rw [checksum_spec_hexEncode_shape bs hblt]
      simp [List.enum_length, hexEncode_length, hbslen]
    · rw [checksum_spec_hexEncode_shape bs hblt, strBytes_0x]
      rfl
    · rw [checksum_spec_hexEncode_shape bs hblt]
      intro b hbm
      simp only [List.drop_succ_cons, List.drop_zero] at hbm
      obtain ⟨p, hp, rfl⟩ := List.mem_map.mp hbm
      have hp2 : p.2 ∈ hexEncode bs := List.snd_mem_of_mem_enum hp
      have hp2low := hlow p.2 hp2
      split
      · exact toUpperByte_hex_range _ hp2low
      · exact isHexByte_of_lower _ hp2low
  · have hy : y = checksum_spec x := by
      have := checksum_eq_spec x hlen
      rw [hcx] at this
      exact (RResult.ok.injEq _ _).mp this
    subst hy
    have hlowaddr := addr_bytes_lower x hhex
    have hmap2 : ((trimStart0x x).map toLowerByte).map toLowerByte =
        (trimStart0x x).map toLowerByte := map_lower_of_lower _ hlowaddr
    have htrimaddr : trimStart0x ((trimStart0x x).map toLowerByte) =
        (trimStart0x x).map toLowerByte :=
      trimStart0x_no_x _ (fun b hbm => lower_no_x b (hlowaddr b hbm))
    have hlower : (checksum_spec x).map toLowerByte =
        48 :: 120 :: (trimStart0x x).map toLowerByte := checksum_spec_map_lower x hhex
    have htrimy : trimStart0x ((checksum_spec x).map toLowerByte) =
        (trimStart0x x).map toLowerByte := by
      rw [hlower, trimStart0x_cons2, htrimaddr]
    have hcs := checksum_eq_spec ((checksum_spec x).map toLowerByte)
      (by rw [htrimy, List.length_map]; exact hlen)
    rw [hcs]
    congr 1
    refine checksum_spec_congr _ _ ?_
    rw [htrimy, hmap2]

/-- Witness for C8: the pattern at a concrete 65-byte key, and idempotence at
the concrete address `"0xff"`. -/
theorem claim_C8_addr_checksum_properties_witness :
    (∃ out, pk_to_eth_addr (List.replicate 65 7) = RResult.ok out ∧ out.length = 42 ∧
      out.take 2 = strBytes "0x" ∧ ∀ b ∈ out.drop 2, isHexByte b = true) ∧
    checksum ((checksum_spec (strBytes "0xff")).map toLowerByte) =
      RResult.ok (checksum_spec (strBytes "0xff")) :=
  ⟨claim_C8_addr_checksum_properties.2.1 _ (by decide),
   claim_C8_addr_checksum_properties.2.2 (strBytes "0xff") (checksum_spec (strBytes "0xff"))
     (by decide) (by decide) (checksum_eq_spec _ (by decide))⟩

/-! ## Concrete library instances for closed evaluations -/

/-- A small concrete instance of the BLS interface over `Nat` carriers: a
signature verifies exactly when it is nonzero, keys pass through unchanged,
and the byte codecs are trivial. Used to evaluate the embedded control flow
on closed inputs. -/
def B2 : BlsApi Nat Nat Nat Nat Nat :=
  { sk_to_pk := fun sk => sk
    sign := fun _ _ _ _ => 0
    verify := fun sig _ _ _ _ _ _ =>
      if sig = 0 then BLST_ERROR.BLST_VERIFY_FAIL else BLST_ERROR.BLST_SUCCESS
    compress := fun _ => [0]
    sk_to_bytes := fun _ => [0]
    sk_serialize := fun _ => [0]
    pk_from_bytes := fun bs => Except.ok (bs.foldl (fun a b => 256 * a + b) 0)
    sk_from_bytes := fun bs => Except.ok (bs.foldl (fun a b => 256 * a + b) 0)
    aggregate := fun _ _ => Except.ok 0
    to_signature := fun a => a
    aggregate_verify := fun _ _ _ _ _ _ => BLST_ERROR.BLST_SUCCESS
    to_public_key := fun a => a }

/-- The empty file system. -/
def fs0 : Fs := { files := [], dirs := [] }

lemma getD_replicate_of_lt {α : Type} (n i : Nat) (a d : α) (h : i < n) :
    (List.replicate n a).getD i d = a := by
  rw [List.getD_eq_getElem _ _ (by simpa using h)]
  simp

lemma individualErrs_length {Sk Pk Sig AggSig AggPk : Type}
    (B : BlsApi Sk Pk Sig AggSig AggPk) (sigs : List Sig) (pks : List Pk)
    (msgs : List (List Nat)) (h1 : sigs.length = pks.length)
    (h2 : sigs.length = msgs.length) :
    (individualErrs B sigs pks msgs).length = sigs.length := by
  simp [individualErrs, List.length_zip]
  omega

/-- C2 counterexample: with the signature at index 0 invalid (first run) or the
signature at index 1 invalid (second run), `aggregate_non_uniform_bls_sigs`
returns the same fixed error `"There was an invalid signature in the group"`,
so the reported error does not name the failing index. -/
theorem claim_C2_counterexample :
    aggregate_non_uniform_bls_sigs B2 [0, 1] [7, 8] [[1], [2]] =
      RResult.err "There was an invalid signature in the group" ∧
    aggregate_non_uniform_bls_sigs B2 [1, 0] [7, 8] [[1], [2]] =
      RResult.err "There was an invalid signature in the group" ∧
    aggregate_non_uniform_bls_sigs B2 [0, 1] [7, 8] [[1], [2]] =
      aggregate_non_uniform_bls_sigs B2 [1, 0] [7, 8] [[1], [2]] := by
  refine ⟨?_, ?_, ?_⟩ <;> rfl

/-- C2 (amended): on equal-length non-empty inputs,
`aggregate_non_uniform_bls_sigs` first verifies every triple individually
with group and validity checks enabled (`individualErrs` passes `true` for
both flags); if any individual verification fails it returns the generic
error `"There was an invalid signature in the group"` — not an error naming
the failing index — without the aggregation influencing the outcome; only
when all checks pass does it aggregate and run the multi-message
`aggregate_verify` pairing check. -/
theorem claim_C2_amended {Sk Pk Sig AggSig AggPk : Type}
    (B : BlsApi Sk Pk Sig AggSig AggPk) (sigs : List Sig) (pks : List Pk)
    (msgs : List (List Nat)) (h0 : 0 < sigs.length)
    (h1 : sigs.length = pks.length) (h2 : sigs.length = msgs.length) :
    ((∃ i, i < sigs.length ∧
        (individualErrs B sigs pks msgs).getD i BLST_ERROR.BLST_SUCCESS ≠
          BLST_ERROR.BLST_SUCCESS) →
      aggregate_non_uniform_bls_sigs B sigs pks msgs =
        RResult.err "There was an invalid signature in the group") ∧
    (individualErrs B sigs pks msgs =
        List.replicate sigs.length BLST_ERROR.BLST_SUCCESS →
      aggregate_non_uniform_bls_sigs B sigs pks msgs =
        match B.aggregate sigs true with
        | Except.error e =>
            RResult.err ("could not aggregate the signatures " ++ blstErrName e)
        | Except.ok agg =>
            match B.aggregate_verify (B.to_signature agg) false msgs CIPHER_SUITE pks
                false with
            | BLST_ERROR.BLST_SUCCESS => RResult.ok ()
            | _ => RResult.err "BLS aggregate_verify failed to verify signatures") := by
  constructor
  · rintro ⟨i, hi, hgetD⟩
    have hne : ¬ individualErrs B sigs pks msgs =
        List.replicate sigs.length BLST_ERROR.BLST_SUCCESS := by
      intro he
      rw [he, getD_replicate_of_lt _ _ _ _ hi] at hgetD
      exact hgetD rfl
    simp only [aggregate_non_uniform_bls_sigs]
    rw [if_neg (by omega), if_neg (by omega), if_neg (by omega), if_pos hne]
  · intro he
    simp only [aggregate_non_uniform_bls_sigs]
    rw [if_neg (by omega), if_neg (by omega), if_neg (by omega),
      if_neg (not_not_intro he)]

/-- Witness for the amended C2 at concrete inputs (index 0 invalid). -/
theorem claim_C2_amended_witness :
    aggregate_non_uniform_bls_sigs B2 [0, 1] [7, 8] [[3], [4]] =
      RResult.err "There was an invalid signature in the group" :=
  (claim_C2_amended B2 [0, 1] [7, 8] [[3], [4]] (by decide) (by decide) (by decide)).1
    ⟨0, by decide, by decide⟩

/-- C3: the aggregate-verification precondition violations are enforced with
`assert!`/`assert_eq!`, which are process aborts (panics), not recoverable
error returns: the empty uniform input, the empty non-uniform input and a
non-uniform length mismatch all panic. -/
theorem claim_C3_asserts_panic :
    aggregate_uniform_bls_sigs B2 0 [] [1, 2] =
      RResult.panicked "assertion failed: n > 0" ∧
    aggregate_non_uniform_bls_sigs B2 [] [] [] =
      RResult.panicked "assertion failed: n > 0" ∧
    aggregate_non_uniform_bls_sigs B2 [1] [] [[1]] =
      RResult.panicked "assertion failed: n == pks.len()" := by
  refine ⟨?_, ?_, ?_⟩ <;> rfl

/-- C4: after persisting one BLS key (generated secret `5`, whose compressed
public key hex identifier is `"00"` under the `B2` codecs), `list_bls_keys`
reads the key-store root `"./etc/keys/"` and returns the category directory
name `"bls_keys"` — not the persisted identifier. The actual `bls_keys`
category directory does hold an entry named by the identifier, and on a file
system with no key-store root the function fails with the missing-directory
error. -/
theorem claim_C4_list_reads_root_not_category :
    list_bls_keys (bls_key_gen B2 fs0 5 true).2 = RResult.ok [strBytes "bls_keys"] ∧
    fsReadDir (bls_key_gen B2 fs0 5 true).2 (KEYS_DIR ++ strBytes "bls_keys/") =
      some [hexEncode (B2.compress (B2.sk_to_pk 5))] ∧
    ¬ strBytes "bls_keys" = hexEncode (B2.compress (B2.sk_to_pk 5)) ∧
    list_bls_keys fs0 = RResult.err "No keys saved in dir" := by
  refine ⟨?_, ?_, ?_, ?_⟩ <;> decide

/-- C7: `bls_key_gen` persists the secret under
`"./etc/keys/bls_keys/" ++ pk_hex`, but `read_bls_key` looks up
`"./etc/keys/" ++ pk_hex`, so reading the key back by the identifier the
generation used fails even though the file was written. -/
theorem claim_C7_roundtrip_read_fails :
    (bls_key_gen B2 fs0 5 true).1 = RResult.ok (B2.sk_to_pk 5) ∧
    fsRead (bls_key_gen B2 fs0 5 true).2
        (KEYS_DIR ++ strBytes "bls_keys/" ++ hexEncode (B2.compress (B2.sk_to_pk 5))) =
      some (hexEncode (B2.sk_to_bytes 5)) ∧
    read_bls_key B2 (bls_key_gen B2 fs0 5 true).2 (hexEncode (B2.compress (B2.sk_to_pk 5))) =
      RResult.err "Unable to read bls sk from pk_hex" := by
  refine ⟨?_, ?_, ?_⟩ <;> decide

/-- C5: `bls_sign` decodes the identifier into a public key (failing when hex
decoding or point parsing fails), reads the stored secret, fails with the
key-mismatch error whenever the stored secret's derived public key differs
from the decoded one, otherwise signs under the fixed DST with empty
augmentation gated by a self-verification — so every returned signature
passes `verify_bls_sig` against the identifier's public key and the message.
The side condition states the `blst` invariant that `PublicKey::from_bytes`
never returns `Err(BLST_SUCCESS)`. -/
theorem claim_C5_bls_sign_spec {Sk Pk Sig AggSig AggPk : Type} [DecidableEq Pk]
    (B : BlsApi Sk Pk Sig AggSig AggPk) (fs : Fs) (pk_hex msg : List Nat)
    (hpkwf : ∀ bs, ¬ B.pk_from_bytes bs = Except.error BLST_ERROR.BLST_SUCCESS) :
    ((∀ e, hexDecode pk_hex = RResult.err e →
      bls_sign B fs pk_hex msg = RResult.err e) ∧
    (∀ pkb e, hexDecode pk_hex = RResult.ok pkb →
      B.pk_from_bytes pkb = Except.error e →
      bls_sign B fs pk_hex msg = RResult.err "Could not recover pk from pk_hex") ∧
    (∀ pkb pk sk, hexDecode pk_hex = RResult.ok pkb →
      B.pk_from_bytes pkb = Except.ok pk →
      read_bls_key B fs pk_hex = RResult.ok sk → ¬ B.sk_to_pk sk = pk →
      bls_sign B fs pk_hex msg = RResult.err "Mismatch with input and derived pk") ∧
    (∀ pkb pk sk, hexDecode pk_hex = RResult.ok pkb →
      B.pk_from_bytes pkb = Except.ok pk →
      read_bls_key B fs pk_hex = RResult.ok sk → B.sk_to_pk sk = pk →
      bls_sign B fs pk_hex msg =
        match verify_bls_sig B (B.sign sk msg CIPHER_SUITE []) pk msg with
        | RResult.ok _ => RResult.ok (B.sign sk msg CIPHER_SUITE [])
        | RResult.err e => RResult.err e
        | RResult.panicked p => RResult.panicked p)) ∧
    (∀ sig, bls_sign B fs pk_hex msg = RResult.ok sig →
      ∃ pkb pk, hexDecode pk_hex = RResult.ok pkb ∧ B.pk_from_bytes pkb = Except.ok pk ∧
        verify_bls_sig B sig pk msg = RResult.ok ()) := by
  refine ⟨⟨fun e he => ?_, fun pkb e hd hp => ?_, fun pkb pk sk hd hp hr hne => ?_,
    fun pkb pk sk hd hp hr heq => ?_⟩, fun sig hok => ?_⟩
  · simp [bls_sign, he]
  · rw [bls_sign, hd]
    simp only
    rw [hp]
    simp only
    rw [if_neg (by intro h; exact hpkwf pkb (h ▸ hp))]
  · rw [bls_sign, hd]
    simp only
    rw [hp]
    simp only [hr]
    rw [if_pos hne]
  · rw [bls_sign, hd]
    simp only
    rw [hp]
    simp only [hr]
    rw [if_neg (not_not_intro heq)]
  · rw [bls_sign] at hok
    rcases hdec : hexDecode pk_hex with pkb | e | p <;> rw [hdec] at hok
    · simp only at hok
      rcases hpk : B.pk_from_bytes pkb with e | pk <;> rw [hpk] at hok
      · simp only at hok
        by_cases hsucc : e = BLST_ERROR.BLST_SUCCESS
        · rw [if_pos hsucc] at hok
          exact absurd hok (by simp)
        · rw [if_neg hsucc] at hok
          exact absurd hok (by simp)
      · simp only at hok
        rcases hread : read_bls_key B fs pk_hex with sk | e | p <;> rw [hread] at hok
        · simp only at hok
          by_cases hmis : ¬ B.sk_to_pk sk = pk
          · rw [if_pos hmis] at hok
            exact absurd hok (by simp)
          · rw [if_neg hmis] at hok
            refine ⟨pkb, pk, rfl, hpk, ?_⟩
            rcases hv : verify_bls_sig B (B.sign sk msg CIPHER_SUITE []) pk msg
              with u | e | p <;> rw [hv] at hok
            · cases hok
              exact hv
            · exact absurd hok (by simp)
            · exact absurd hok (by simp)
        · exact absurd hok (by simp)
        · exact absurd hok (by simp)
    · exact absurd hok (by simp)
    · exact absurd hok (by simp)

/-- Like `B2` but signing produces the (verifying) signature `1`. -/
def B5 : BlsApi Nat Nat Nat Nat Nat := { B2 with sign := fun _ _ _ _ => 1 }

/-- A store holding the secret `"aa"` under the identifier `"aa"` at the path
`read_bls_key` uses. -/
def fs5 : Fs := { files := [(KEYS_DIR ++ strBytes "aa", strBytes "aa")], dirs := [] }

/-- Witness for C5: a concrete successful signing run whose returned signature
passes verification against the identifier's public key. -/
theorem claim_C5_bls_sign_spec_witness :
    ∃ pkb pk, hexDecode (strBytes "aa") = RResult.ok pkb ∧
      B5.pk_from_bytes pkb = Except.ok pk ∧
      verify_bls_sig B5 1 pk [9] = RResult.ok () :=
  (claim_C5_bls_sign_spec B5 fs5 (strBytes "aa") [9]
    (fun bs => by simp [B5, B2])).2 1 (by decide)

/-- C9: `bls_key_provision` leaves the key store untouched, and whenever it
succeeds its result is the hex-encoded ECIES ciphertext of the fresh
secret's serialized bytes together with that secret's derived public key. -/
theorem claim_C9_provision_no_store_write {Sk Pk Sig AggSig AggPk : Type}
    (B : BlsApi Sk Pk Sig AggSig AggPk) (E : EciesApi) (fs : Fs) (sk : Sk)
    (eth_pk_hex : List Nat) :
    (bls_key_provision B E fs sk eth_pk_hex).2 = fs ∧
    (∀ ct_hex pk, (bls_key_provision B E fs sk eth_pk_hex).1 = RResult.ok (ct_hex, pk) →
      pk = B.sk_to_pk sk ∧
      ∃ receiver_pub ct, hexDecode eth_pk_hex = RResult.ok receiver_pub ∧
        E.encrypt receiver_pub (B.sk_serialize sk) = Except.ok ct ∧
        ct_hex = hexEncode ct) := by
  constructor
  · unfold bls_key_provision
    split
    · split <;> rfl
    · rfl
  · intro ct_hex pk hok
    unfold bls_key_provision at hok
    rcases h : hexDecode eth_pk_hex with r | e | p <;> rw [h] at hok <;> simp only at hok
    · rcases h2 : E.encrypt r (B.sk_serialize sk) with e | ct <;>
        rw [h2] at hok <;> simp only at hok
      · exact absurd hok (by simp)
      · simp only [RResult.ok.injEq, Prod.mk.injEq] at hok
        obtain ⟨h3, h4⟩ := hok
        exact ⟨h4.symm, r, ct, rfl, h2, h3.symm⟩
    · exact absurd hok (by simp)
    · exact absurd hok (by simp)

/-- A concrete ECIES instance: the "ciphertext" is the plaintext itself. -/
def E1 : EciesApi := { encrypt := fun _ msg => Except.ok msg }

/-- Witness for C9 at a concrete requester key. -/
theorem claim_C9_provision_no_store_write_witness :
    (5 : Nat) = B2.sk_to_pk 5 ∧
    ∃ receiver_pub ct, hexDecode (strBytes "aa") = RResult.ok receiver_pub ∧
      E1.encrypt receiver_pub (B2.sk_serialize 5) = Except.ok ct ∧
      [48, 48] = hexEncode ct :=
  (claim_C9_provision_no_store_write B2 E1 fs0 5 (strBytes "aa")).2 [48, 48] 5 (by decide)
